import Mathlib

/-!
Verification of the watchlist core of the personalcfa repository.

The development shallowly embeds the relevant TypeScript modules:

* `frontend/lib/watchlist.ts` — the Symbol Store (`WatchlistManager`),
  a localStorage-backed list of watched ticker symbols.  The persisted
  list is passed explicitly as a `List WatchlistStock` argument and the
  presence of a browser window as a `Bool`, so every method becomes a
  pure function from (environment, stored list, arguments) to
  (returned value, newly persisted list).
* `frontend/store/useAppStore.ts` — the `addRecentSearch` action.
* `frontend/lib/sparkline.ts` — `generateSparklineData`.
* the `useWatchlist` hook — the per-symbol fetch of a synchronization
  cycle.  JavaScript `Math.random()` draws are modelled as an explicit
  oracle `rand : Nat → ℚ` (one fixed index per call site), and the
  Gateway response as an explicit outcome value.
* the Yahoo quote API route — the repository-side Gateway adapter.

Numbers are modelled as rationals; the claims under study do not
depend on floating-point rounding.
-/

namespace PersonalCfa

/-- JavaScript `toUpperCase`, modelled as the per-character uppercase
map over the characters of the string. -/
def jsToUpper (s : String) : String := ⟨s.data.map Char.toUpper⟩

/-- A persisted watchlist record (interface `WatchlistStock` in
`frontend/lib/watchlist.ts`). -/
structure WatchlistStock where
  symbol : String
  name : String
  addedAt : Nat
deriving DecidableEq

/-- Model of `WatchlistManager.getStocks`: read the persisted list.  When no
browser window exists (the typeof window check) it returns the
empty list without touching storage. -/
def getStocks (hasWindow : Bool) (stocks : List WatchlistStock) : List WatchlistStock :=
  if hasWindow then stocks else []

/-- Model of `WatchlistManager.addStock`: returns the boolean result together
with the list persisted on return (unchanged when the method does not
write). -/
def addStock (hasWindow : Bool) (now : Nat) (stocks : List WatchlistStock)
    (symbol name : String) : Bool × List WatchlistStock :=
  if hasWindow then
    let sl := getStocks hasWindow stocks
    let upperSymbol := jsToUpper symbol
    if sl.any (fun stock => stock.symbol == upperSymbol) then
      (false, stocks)
    else
      (true, sl ++ [⟨upperSymbol, name, now⟩])
  else (false, stocks)

/-- Model of `WatchlistManager.removeStock`. -/
def removeStock (hasWindow : Bool) (stocks : List WatchlistStock)
    (symbol : String) : Bool × List WatchlistStock :=
  if hasWindow then
    let sl := getStocks hasWindow stocks
    let upperSymbol := jsToUpper symbol
    let filtered := sl.filter (fun stock => stock.symbol != upperSymbol)
    if filtered.length = sl.length then
      (false, stocks)
    else
      (true, filtered)
  else (false, stocks)

/-- Model of `WatchlistManager.getSymbols`. -/
def getSymbols (hasWindow : Bool) (stocks : List WatchlistStock) : List String :=
  (getStocks hasWindow stocks).map (fun stock => stock.symbol)

/-- Model of `WatchlistManager.hasStock`. -/
def hasStock (hasWindow : Bool) (stocks : List WatchlistStock) (symbol : String) : Bool :=
  (getStocks hasWindow stocks).any (fun stock => stock.symbol == jsToUpper symbol)

/-- Model of `WatchlistManager.initializeDefaults`: when the store is empty it
adds AAPL, MSFT and NVDA in this order via `addStock` (each call reads
its own `Date.now()`, hence three time parameters). -/
def initDefaults (hasWindow : Bool) (now1 now2 now3 : Nat)
    (stocks : List WatchlistStock) : List WatchlistStock :=
  let sl := getStocks hasWindow stocks
  if sl.length = 0 then
    let s1 := (addStock hasWindow now1 stocks "AAPL" "Apple Inc.").2
    let s2 := (addStock hasWindow now2 s1 "MSFT" "Microsoft Corporation").2
    (addStock hasWindow now3 s2 "NVDA" "NVIDIA Corporation").2
  else stocks

/-- A sequence of `addStock` calls (browser present), each operation a
(symbol, name, time) triple; used to state the set-of-symbols invariant
over arbitrary add sequences. -/
def addMany (stocks : List WatchlistStock)
    (ops : List (String × String × Nat)) : List WatchlistStock :=
  ops.foldl (fun st op => (addStock true op.2.2 st op.1 op.2.1).2) stocks

/-- Model of `addRecentSearch` from `frontend/store/useAppStore.ts`: drop every
occurrence of the uppercased symbol, prepend it, keep the first 5. -/
def addRecentSearch (recentSearches : List String) (symbol : String) : List String :=
  let filtered := recentSearches.filter (fun s => s != jsToUpper symbol)
  ((jsToUpper symbol :: filtered).take 5)

/-! ## The Gateway and the per-symbol fetch of a synchronization cycle -/

/-- JavaScript `a || b` on an optional number: the fallback is taken
when the field is absent or falsy (zero). -/
def jsOrQ (x : Option ℚ) (y : ℚ) : ℚ :=
  match x with
  | some v => if v = 0 then y else v
  | none => y

/-- JavaScript `a || b` on an optional string (empty string is falsy). -/
def jsOrS (x : Option String) (y : String) : String :=
  match x with
  | some v => if v = "" then y else v
  | none => y

/-- Truthiness of an optional numeric field. -/
def truthyQ (x : Option ℚ) : Bool :=
  match x with
  | some v => v != 0
  | none => false

/-- The fields of `snapshot.results[0]` that `useWatchlist` reads.
`last_quote_c` is `none` when `last_quote` is absent or not an object
(the code then takes `null`). -/
structure SnapshotResult where
  ticker : Option String
  last_quote_c : Option ℚ
  fmv : Option ℚ
  value : Option ℚ
  todaysChange : Option ℚ
  todaysChangePerc : Option ℚ
  name : Option String
deriving DecidableEq

/-- Outcome of one `api.getSnapshot` call as observed by `useWatchlist`:
`ok r` is a response whose `results[0]` is `r` (`none` when missing or
not an object), `err` is a thrown error (network, non-200, timeout). -/
inductive GatewayOutcome where
  | ok (r : Option SnapshotResult)
  | err
deriving DecidableEq

/-- The published per-symbol record (`WatchlistItem` in the types
module). -/
structure WatchlistItem where
  symbol : String
  name : String
  price : ℚ
  change : ℚ
  changePercent : ℚ
  sparklineData : List ℚ
deriving DecidableEq

/-- Tail of `generateSparklineData`: `count` further samples, each the
previous sample times `1 + (rand i - 0.5) * 2 * volatility`. -/
def sparklineTail (rand : Nat → ℚ) (volatility prev : ℚ) : Nat → Nat → List ℚ
  | _, 0 => []
  | i, count + 1 =>
    let newPrice := prev * (1 + (rand i - 1/2) * 2 * volatility)
    newPrice :: sparklineTail rand volatility newPrice (i + 1) count

/-- Model of `generateSparklineData` from `frontend/lib/sparkline.ts`: the data
array starts at `basePrice` and the loop runs for indices
`1 ≤ i < length`, so the result has `1 + (length - 1)` samples.  The
`Math.random()` draws of the loop are the oracle values
`rand 0, rand 1, …` in order. -/
def generateSparklineData (basePrice : ℚ) (length : Nat) (volatility : ℚ)
    (rand : Nat → ℚ) : List ℚ :=
  basePrice :: sparklineTail rand volatility basePrice 0 (length - 1)

/-- The mock item built by `useWatchlist` when the snapshot has no
usable `results[0]` or the call threw; both source branches are
textually identical.  Draw 0 feeds the mock price, draw 1 the mock
change, draws 2.. the sparkline. -/
def mockItem (symbol : String) (rand : Nat → ℚ) : WatchlistItem :=
  let mockPrice := 100 + rand 0 * 50
  let mockChange := (rand 1 - 1/2) * 10
  { symbol := jsToUpper symbol
    name := symbol ++ " Inc."
    price := mockPrice
    change := mockChange
    changePercent := mockChange / mockPrice * 100
    sparklineData := generateSparklineData mockPrice 10 (2/100) (fun i => rand (2 + i)) }

/-- The per-symbol fetch of `useWatchlist`: one symbol, the Gateway
outcome for it, and the `Math.random()` oracle for the draws this call
makes (fixed indices per call site: 0 price, 1 change, 2.. sparkline). -/
def fetchOne (symbol : String) (out : GatewayOutcome) (rand : Nat → ℚ) : WatchlistItem :=
  match out with
  | .ok (some result) =>
    let price := jsOrQ result.last_quote_c
      (jsOrQ result.fmv (jsOrQ result.value (100 + rand 0 * 50)))
    let change := jsOrQ result.todaysChange ((rand 1 - 1/2) * 10)
    let changePercent := jsOrQ result.todaysChangePerc (change / price * 100)
    let name := jsOrS result.name (symbol ++ " Inc.")
    { symbol := jsOrS result.ticker (jsToUpper symbol)
      name := name
      price := price
      change := change
      changePercent := changePercent
      sparklineData := generateSparklineData price 10 (2/100) (fun i => rand (2 + i)) }
  | .ok none => mockItem symbol rand
  | .err => mockItem symbol rand

/-- One whole fetch batch: `symbols.map` over the per-symbol fetch
(the `filter(Boolean)` of the source keeps every element, each being a
truthy object, and every per-symbol rejection is caught inside the
map, so `Promise.all` always resolves with one item per symbol). -/
def fetchBatch (symbols : List String) (gw : String → GatewayOutcome)
    (rand : String → Nat → ℚ) : List WatchlistItem :=
  symbols.map (fun symbol => fetchOne symbol (gw symbol) (rand symbol))

/-- The data state of the spec (§3/§4.2) read off the branch of
`fetchOne` that ran; the source tracks no such field, so this
classifier names the branches: `err` is the request-failure branch
(`Failed`), a response without `results[0]` or without a usable price
is the fallback branch (`Fallback`), a usable price is `Fresh`. -/
inductive DataState where
  | Fresh
  | Stale
  | Fallback
  | Failed
deriving DecidableEq

/-- Branch classifier for a Gateway outcome (see `DataState`). -/
def dataStateOf (out : GatewayOutcome) : DataState :=
  match out with
  | .err => .Failed
  | .ok none => .Fallback
  | .ok (some r) =>
    if truthyQ r.last_quote_c || truthyQ r.fmv || truthyQ r.value then .Fresh
    else .Fallback

/-! ## The Yahoo quote route (the repository side of the Gateway) -/

/-- The fields of a `yahoo-finance2` quote that the quote API route
reads when building a snapshot result. -/
structure YQuote where
  regularMarketPrice : Option ℚ
  regularMarketChange : Option ℚ
  regularMarketChangePercent : Option ℚ
  longName : Option String
  shortName : Option String
deriving DecidableEq

/-- The successful transform of the Yahoo quote API route: it always
sets `ticker` to the uppercased request symbol and defaults every
missing numeric field to 0. -/
def yahooQuoteRoute (symbol : String) (q : YQuote) : SnapshotResult :=
  { ticker := some (jsToUpper symbol)
    last_quote_c := some (jsOrQ q.regularMarketPrice 0)
    fmv := some (jsOrQ q.regularMarketPrice 0)
    value := some (jsOrQ q.regularMarketPrice 0)
    todaysChange := some (jsOrQ q.regularMarketChange 0)
    todaysChangePerc := some (jsOrQ q.regularMarketChangePercent 0)
    name := some (jsOrS q.longName (jsOrS q.shortName symbol)) }

/-- The Gateway as composed in the repository: the client
(`getSnapshot` → `makeRequest`) hits the quote route.  `netFail s`
models a network or transport failure of the request for `s`;
`yq s = none` models `yahooFinance.quote` throwing or returning an
invalid quote, which the route turns into a 500 and the client into a
thrown error.  Otherwise the response carries exactly one result,
produced by `yahooQuoteRoute`. -/
def yahooGateway (yq : String → Option YQuote) (netFail : String → Bool)
    (symbol : String) : GatewayOutcome :=
  if netFail symbol then .err
  else
    match yq symbol with
    | none => .err
    | some q => .ok (some (yahooQuoteRoute symbol q))

/-! ## The generation-guarded publish of the Watchlist Synchronizer

Modelled from the spec: the source delegates the discarding of stale
fetch batches to its query-cache dependency (results are cached under
a key made of the symbols list and only the data of the current
key is ever pushed to the store), and that library is not part of this
repository.  §4.2/§5/§9 of the spec describe the intended mechanism as
a generation counter bumped on every add/remove, with the results of a batch
compared against the current generation at publish time; the machine
below is that description. -/

/-- Synchronizer state: the current symbol-set generation, the
generation whose batch was last published, and the published view. -/
structure SyncState where
  generation : Nat
  pubGen : Nat
  published : List WatchlistItem
deriving DecidableEq

/-- Synchronizer events: `bump` is an add/remove changing the watched
set (starting a batch for the new generation); `settle g v` is the
completion of the batch started for generation `g`, carrying view `v`. -/
inductive SyncEvent where
  | bump
  | settle (g : Nat) (v : List WatchlistItem)
deriving DecidableEq

/-- One synchronizer step: a bump raises the generation; a settling
batch is published only when its generation is still the current one,
otherwise it is discarded unchanged. -/
def syncStep (s : SyncState) : SyncEvent → SyncState
  | .bump => { s with generation := s.generation + 1 }
  | .settle g v => if g = s.generation then { s with pubGen := g, published := v } else s

/-- Run the synchronizer over a sequence of events. -/
def syncRun (s : SyncState) : List SyncEvent → SyncState
  | [] => s
  | e :: es => syncRun (syncStep s e) es

/-! ## Helper lemmas -/

/-- A falsy optional field makes the JavaScript `||` chain fall to its
right operand. -/
lemma jsOrQ_of_not_truthy (x : Option ℚ) (y : ℚ) (h : truthyQ x = false) :
    jsOrQ x y = y := by
  cases x with
  | none => rfl
  | some v =>
    simp only [truthyQ, bne_eq_false_iff_eq] at h
    simp [jsOrQ, h]

/-- The action `addRecentSearch` keeps the list duplicate-free. -/
lemma addRecentSearch_nodup (l : List String) (symbol : String) (h : l.Nodup) :
    (addRecentSearch l symbol).Nodup := by
  have hfilter : (l.filter (fun s => s != jsToUpper symbol)).Nodup := h.filter _
  have hnotmem : jsToUpper symbol ∉ l.filter (fun s => s != jsToUpper symbol) := by
    intro hmem
    simp [List.mem_filter] at hmem
  have hcons : (jsToUpper symbol :: l.filter (fun s => s != jsToUpper symbol)).Nodup :=
    List.nodup_cons.mpr ⟨hnotmem, hfilter⟩
  exact hcons.sublist (List.take_sublist 5 _)

/-- With a browser window, `addStock` on an absent symbol appends one
record and reports success; on a present symbol it reports failure and
leaves the persisted list unchanged. -/
lemma addStock_spec (now : Nat) (stocks : List WatchlistStock) (symbol name : String) :
    ((stocks.any fun stock => stock.symbol == jsToUpper symbol) = true →
      addStock true now stocks symbol name = (false, stocks))
    ∧ ((stocks.any fun stock => stock.symbol == jsToUpper symbol) = false →
      addStock true now stocks symbol name =
        (true, stocks ++ [⟨jsToUpper symbol, name, now⟩])) := by
  constructor <;> intro h <;> simp [addStock, getStocks, h]

/-- Adding a stock preserves distinctness of the stored symbols. -/
lemma addStock_symbols_nodup (now : Nat) (stocks : List WatchlistStock)
    (symbol name : String)
    (h : (stocks.map (fun stock => stock.symbol)).Nodup) :
    (((addStock true now stocks symbol name).2).map (fun stock => stock.symbol)).Nodup := by
  by_cases hmem : (stocks.any fun stock => stock.symbol == jsToUpper symbol) = true
  · rw [(addStock_spec now stocks symbol name).1 hmem]
    exact h
  · rw [(addStock_spec now stocks symbol name).2 (by simpa using hmem)]
    have hnot : jsToUpper symbol ∉ stocks.map (fun stock => stock.symbol) := by
      intro hm
      rw [List.mem_map] at hm
      obtain ⟨stock, hst, heq⟩ := hm
      exact hmem (List.any_eq_true.mpr ⟨stock, hst, by simp [heq]⟩)
    simp only [List.map_append, List.map_cons, List.map_nil]
    rw [List.nodup_append]
    exact ⟨h, List.nodup_singleton _, by simpa [List.disjoint_right] using hnot⟩

/-- Any sequence of `addStock` calls preserves distinctness of the
stored symbols. -/
lemma addMany_symbols_nodup (stocks : List WatchlistStock)
    (ops : List (String × String × Nat))
    (h : (stocks.map (fun stock => stock.symbol)).Nodup) :
    ((addMany stocks ops).map (fun stock => stock.symbol)).Nodup := by
  induction ops generalizing stocks with
  | nil => exact h
  | cons op ops ih =>
    exact ih _ (addStock_symbols_nodup op.2.2 stocks op.1 op.2.1 h)

/-- The tail of the sparkline series has exactly the requested number
of samples. -/
lemma sparklineTail_length (rand : Nat → ℚ) (volatility : ℚ) :
    ∀ (count : Nat) (i : Nat) (prev : ℚ),
      (sparklineTail rand volatility prev i count).length = count := by
  intro count
  induction count with
  | zero => intro i prev; rfl
  | succ n ih => intro i prev; simp [sparklineTail, ih]

/-- Every branch of the per-symbol fetch synthesizes its sparkline from
the resolved price of the entry it returns. -/
lemma fetchOne_sparkline (symbol : String) (out : GatewayOutcome) (rand : Nat → ℚ) :
    (fetchOne symbol out rand).sparklineData =
      generateSparklineData (fetchOne symbol out rand).price 10 (2/100)
        (fun i => rand (2 + i)) := by
  cases out with
  | ok r => cases r <;> rfl
  | err => rfl

/-- Through the own Gateway of the repository (client plus Yahoo quote
route) the published symbol of an entry is always the uppercased
requested symbol, whatever the route or network did. -/
lemma fetchOne_yahoo_symbol (yq : String → Option YQuote) (netFail : String → Bool)
    (rand : Nat → ℚ) (s : String) :
    (fetchOne s (yahooGateway yq netFail s) rand).symbol = jsToUpper s := by
  unfold yahooGateway
  by_cases hnf : netFail s
  · simp [hnf, fetchOne, mockItem]
  · simp only [hnf, if_neg, Bool.false_eq_true, ite_false]
    cases yq s with
    | none => rfl
    | some q =>
      show jsOrS (some (jsToUpper s)) (jsToUpper s) = jsToUpper s
      simp [jsOrS]

/-- Running a concatenation of event sequences composes. -/
lemma syncRun_append (s : SyncState) (es fs : List SyncEvent) :
    syncRun s (es ++ fs) = syncRun (syncRun s es) fs := by
  induction es generalizing s with
  | nil => rfl
  | cons e es ih => simp [syncRun, ih]

/-- A synchronizer step never lowers the generation. -/
lemma syncStep_generation_mono (s : SyncState) (e : SyncEvent) :
    s.generation ≤ (syncStep s e).generation := by
  cases e with
  | bump => exact Nat.le_succ _
  | settle g v =>
    by_cases h : g = s.generation <;> simp [syncStep, h]

/-- The bound of `pubGen` by `generation` is an invariant of the synchronizer. -/
lemma syncStep_invariant (s : SyncState) (e : SyncEvent)
    (h : s.pubGen ≤ s.generation) :
    (syncStep s e).pubGen ≤ (syncStep s e).generation := by
  cases e with
  | bump => exact Nat.le_succ_of_le h
  | settle g v =>
    by_cases hg : g = s.generation <;> simp [syncStep, hg, h]

/-- Under the invariant, the last published generation never goes
back. -/
lemma syncStep_pubGen_mono (s : SyncState) (e : SyncEvent)
    (h : s.pubGen ≤ s.generation) :
    s.pubGen ≤ (syncStep s e).pubGen := by
  cases e with
  | bump => exact le_refl _
  | settle g v =>
    by_cases hg : g = s.generation <;> simp [syncStep, hg]
    exact hg ▸ h

/-- The invariant and the published-generation lower bound hold after
any run. -/
lemma syncRun_invariant (s : SyncState) (es : List SyncEvent)
    (h : s.pubGen ≤ s.generation) :
    (syncRun s es).pubGen ≤ (syncRun s es).generation
    ∧ s.pubGen ≤ (syncRun s es).pubGen := by
  induction es generalizing s with
  | nil => exact ⟨h, le_refl _⟩
  | cons e es ih =>
    obtain ⟨h1, h2⟩ := ih (syncStep s e) (syncStep_invariant s e h)
    exact ⟨h1, le_trans (syncStep_pubGen_mono s e h) h2⟩

/-! ## Claims -/

/-- C9: when no browser window is available, every Symbol Store
operation is a safe no-op — `list()` is empty, and add/remove return
`false` without mutating or persisting anything. -/
theorem noWindow_store_noop (stocks : List WatchlistStock)
    (symbol name : String) (now : Nat) :
    getStocks false stocks = []
    ∧ addStock false now stocks symbol name = (false, stocks)
    ∧ removeStock false stocks symbol = (false, stocks) := by
  exact ⟨rfl, rfl, rfl⟩

/-- C10: after every `addRecentSearch` call the recent-searches list
has at most 5 elements and starts with the uppercased symbol, and from
a duplicate-free starting list it stays duplicate-free — an invariant
preserved under every sequence of calls. -/
theorem addRecentSearch_invariant (recentSearches : List String) (symbol : String) :
    (addRecentSearch recentSearches symbol).length ≤ 5
    ∧ (addRecentSearch recentSearches symbol).head? = some (jsToUpper symbol)
    ∧ (recentSearches.Nodup → (addRecentSearch recentSearches symbol).Nodup)
    ∧ (∀ symbols : List String, recentSearches.Nodup →
        (symbols.foldl addRecentSearch recentSearches).Nodup) := by
  refine ⟨List.length_take_le 5 _, rfl, addRecentSearch_nodup _ _, ?_⟩
  intro symbols
  induction symbols generalizing recentSearches with
  | nil => exact fun h => h
  | cons a as ih => exact fun h => ih _ (addRecentSearch_nodup _ _ h)

/-- C6: on an empty store `initializeDefaults` seeds exactly AAPL,
MSFT, NVDA in this order; on a non-empty store it leaves everything
untouched. -/
theorem initDefaults_spec (now1 now2 now3 : Nat) (stocks : List WatchlistStock) :
    initDefaults true now1 now2 now3 [] =
      [⟨"AAPL", "Apple Inc.", now1⟩, ⟨"MSFT", "Microsoft Corporation", now2⟩,
        ⟨"NVDA", "NVIDIA Corporation", now3⟩]
    ∧ (stocks ≠ [] → initDefaults true now1 now2 now3 stocks = stocks) := by
  constructor
  · rfl
  · intro h
    simp [initDefaults, getStocks, List.length_eq_zero, h]

/-- Witness for C6 at concrete inputs. -/
theorem initDefaults_spec_witness :
    initDefaults true 1 2 3 [] =
      [⟨"AAPL", "Apple Inc.", 1⟩, ⟨"MSFT", "Microsoft Corporation", 2⟩,
        ⟨"NVDA", "NVIDIA Corporation", 3⟩]
    ∧ initDefaults true 1 2 3 [⟨"TSLA", "Tesla", 0⟩] = [⟨"TSLA", "Tesla", 0⟩] :=
  ⟨(initDefaults_spec 1 2 3 []).1,
    (initDefaults_spec 1 2 3 [⟨"TSLA", "Tesla", 0⟩]).2 (by simp)⟩

/-- C7 counterexample: the synthesized placeholder price is not a
function of the symbol — for the same symbol and the same failing
Gateway behavior, two runs drawing different `Math.random()` values
publish different placeholder prices (100 versus 125 here). -/
theorem placeholder_not_symbol_deterministic :
    (fetchOne "AAPL" .err (fun _ => 0)).price ≠
      (fetchOne "AAPL" .err (fun _ => 1/2)).price := by
  show (100 + (0:ℚ) * 50) ≠ 100 + (1/2 : ℚ) * 50
  norm_num

/-- C7 amended: the placeholder price and change of a `Failed` or
`Fallback` entry are a deterministic function of the symbol together
with the pseudo-random draws consumed — two runs with the same failing
Gateway behavior and the same draws publish the same placeholder price
and change. -/
theorem placeholder_deterministic_in_draws (symbol : String) (out : GatewayOutcome)
    (r r' : Nat → ℚ) (hfail : dataStateOf out ≠ .Fresh)
    (h0 : r 0 = r' 0) (h1 : r 1 = r' 1) :
    (fetchOne symbol out r).price = (fetchOne symbol out r').price
    ∧ (fetchOne symbol out r).change = (fetchOne symbol out r').change := by
  cases out with
  | err => exact ⟨by simp [fetchOne, mockItem, h0], by simp [fetchOne, mockItem, h1]⟩
  | ok res =>
    cases res with
    | none => exact ⟨by simp [fetchOne, mockItem, h0], by simp [fetchOne, mockItem, h1]⟩
    | some result =>
      exact ⟨by simp [fetchOne, h0], by simp [fetchOne, h1]⟩

/-- Witness for C7 amended at concrete inputs. -/
theorem placeholder_deterministic_in_draws_witness :
    (fetchOne "AAPL" .err (fun _ => 0)).price =
      (fetchOne "AAPL" .err (fun _ => 0)).price
    ∧ (fetchOne "AAPL" .err (fun _ => 0)).change =
      (fetchOne "AAPL" .err (fun _ => 0)).change :=
  placeholder_deterministic_in_draws "AAPL" .err (fun _ => 0) (fun _ => 0)
    (by decide) rfl rfl

/-- C8: every entry published by a synchronization cycle carries a
sparkline series of exactly 10 samples whose first sample is the
resolved price of the entry. -/
theorem sparkline_fixed_length (symbols : List String)
    (gw : String → GatewayOutcome) (rand : String → Nat → ℚ)
    (item : WatchlistItem) (h : item ∈ fetchBatch symbols gw rand) :
    item.sparklineData.length = 10
    ∧ item.sparklineData.head? = some item.price := by
  rw [fetchBatch] at h
  obtain ⟨symbol, _, rfl⟩ := List.mem_map.mp h
  rw [fetchOne_sparkline]
  constructor
  · simp [generateSparklineData, sparklineTail_length]
  · rfl

/-- Witness for C8 at concrete inputs. -/
theorem sparkline_fixed_length_witness :
    (fetchOne "AAPL" .err (fun _ => 0)).sparklineData.length = 10
    ∧ (fetchOne "AAPL" .err (fun _ => 0)).sparklineData.head? =
      some (fetchOne "AAPL" .err (fun _ => 0)).price :=
  sparkline_fixed_length ["AAPL"] (fun _ => .err) (fun _ _ => 0) _
    (by simp [fetchBatch])

/-- Witness for C10 at concrete inputs. -/
theorem addRecentSearch_invariant_witness :
    (addRecentSearch ["AAPL"] "meta").length ≤ 5
    ∧ (addRecentSearch ["AAPL"] "meta").head? = some (jsToUpper "meta")
    ∧ (addRecentSearch ["AAPL"] "meta").Nodup
    ∧ (["TSLA"].foldl addRecentSearch ["AAPL"]).Nodup :=
  have h := addRecentSearch_invariant ["AAPL"] "meta"
  have h' := addRecentSearch_invariant ["AAPL"] "meta"
  ⟨h.1, h.2.1, h.2.2.1 (by simp), h'.2.2.2 ["TSLA"] (by simp)⟩

/-- C4: `addStock` normalizes the symbol to uppercase; on a present
symbol it returns `false` and persists nothing; on an absent one it
appends exactly one record with `addedAt = now` at the end of the
persisted list and returns `true`; afterwards the symbol is watched;
and every sequence of adds keeps exactly one record per distinct
normalized symbol. -/
theorem addStock_full (stocks : List WatchlistStock) (symbol name : String) (now : Nat) :
    ((stocks.any fun stock => stock.symbol == jsToUpper symbol) = true →
      addStock true now stocks symbol name = (false, stocks))
    ∧ ((stocks.any fun stock => stock.symbol == jsToUpper symbol) = false →
      addStock true now stocks symbol name =
        (true, stocks ++ [⟨jsToUpper symbol, name, now⟩]))
    ∧ ((stocks.any fun stock => stock.symbol == jsToUpper symbol) = false →
      hasStock true (addStock true now stocks symbol name).2 symbol = true)
    ∧ ((stocks.map fun stock => stock.symbol).Nodup →
      (((addStock true now stocks symbol name).2).map fun stock => stock.symbol).Nodup)
    ∧ (∀ ops : List (String × String × Nat),
        (stocks.map fun stock => stock.symbol).Nodup →
        ((addMany stocks ops).map fun stock => stock.symbol).Nodup) := by
  refine ⟨(addStock_spec now stocks symbol name).1,
    (addStock_spec now stocks symbol name).2, ?_,
    addStock_symbols_nodup now stocks symbol name,
    fun ops => addMany_symbols_nodup stocks ops⟩
  intro h
  rw [(addStock_spec now stocks symbol name).2 h]
  simp [hasStock, getStocks]

/-- Witness for C4 at concrete inputs: adding lowercase aapl to an
empty store appends AAPL, adding it again is rejected without
mutation. -/
theorem addStock_full_witness :
    addStock true 7 [] "aapl" "Apple Inc." = (true, [⟨"AAPL", "Apple Inc.", 7⟩])
    ∧ addStock true 8 [⟨"AAPL", "Apple Inc.", 7⟩] "AAPL" "Apple Inc." =
        (false, [⟨"AAPL", "Apple Inc.", 7⟩])
    ∧ hasStock true (addStock true 7 [] "aapl" "Apple Inc.").2 "aapl" = true :=
  ⟨(addStock_full [] "aapl" "Apple Inc." 7).2.1 (by decide),
    (addStock_full [⟨"AAPL", "Apple Inc.", 7⟩] "AAPL" "Apple Inc." 8).1 (by decide),
    (addStock_full [] "aapl" "Apple Inc." 7).2.2.1 (by decide)⟩

/-- C5: `removeStock` normalizes the symbol to uppercase; when the
symbol is not watched it returns `false` and persists nothing; when it
is watched it removes that record, persists the remaining list, and
returns `true`, after which the symbol is no longer watched. -/
theorem removeStock_full (stocks : List WatchlistStock) (symbol : String) :
    (hasStock true stocks symbol = false →
      removeStock true stocks symbol = (false, stocks))
    ∧ (hasStock true stocks symbol = true →
      removeStock true stocks symbol =
        (true, stocks.filter (fun stock => stock.symbol != jsToUpper symbol))
      ∧ hasStock true (removeStock true stocks symbol).2 symbol = false) := by
  constructor
  · intro h
    simp only [hasStock, getStocks, if_true] at h
    rw [List.any_eq_false] at h
    have hfe : stocks.filter (fun stock => stock.symbol != jsToUpper symbol) = stocks := by
      apply List.filter_eq_self.mpr
      intro a ha
      simpa using h a ha
    simp [removeStock, getStocks, hfe]
  · intro h
    simp only [hasStock, getStocks, if_true] at h
    rw [List.any_eq_true] at h
    obtain ⟨stock, hst, heq⟩ := h
    rw [beq_iff_eq] at heq
    have hlt : (stocks.filter (fun stock => stock.symbol != jsToUpper symbol)).length ≠
        stocks.length := by
      intro hlen
      have := List.filter_length_eq_length.mp hlen stock hst
      simp [heq] at this
    have hres : removeStock true stocks symbol =
        (true, stocks.filter (fun stock => stock.symbol != jsToUpper symbol)) := by
      simp [removeStock, getStocks, hlt]
    refine ⟨hres, ?_⟩
    rw [hres]
    simp only [hasStock, getStocks, if_pos]
    rw [List.any_eq_false]
    intro a ha
    have := (List.mem_filter.mp ha).2
    simpa using this

/-- Witness for C5 at concrete inputs. -/
theorem removeStock_full_witness :
    removeStock true [] "msft" = (false, [])
    ∧ removeStock true [⟨"AAPL", "Apple Inc.", 7⟩] "aapl" =
        (true, [])
    ∧ hasStock true (removeStock true [⟨"AAPL", "Apple Inc.", 7⟩] "aapl").2 "aapl" = false :=
  ⟨(removeStock_full [] "msft").1 (by decide),
    ((removeStock_full [⟨"AAPL", "Apple Inc.", 7⟩] "aapl").2 (by decide)).1,
    ((removeStock_full [⟨"AAPL", "Apple Inc.", 7⟩] "aapl").2 (by decide)).2⟩

/-- C3: a symbol whose Gateway call failed or whose response carries no
usable price still gets an entry in the published batch — classified
`Failed` or `Fallback`, carrying the synthesized (hence positive,
non-null) placeholder price — and the batch as a whole always settles
with one entry per symbol. -/
theorem failed_symbol_still_published (symbols : List String)
    (gw : String → GatewayOutcome) (rand : String → Nat → ℚ) (symbol : String)
    (hmem : symbol ∈ symbols) (hfail : dataStateOf (gw symbol) ≠ .Fresh)
    (hr : 0 ≤ rand symbol 0) :
    (dataStateOf (gw symbol) = .Failed ∨ dataStateOf (gw symbol) = .Fallback)
    ∧ fetchOne symbol (gw symbol) (rand symbol) ∈ fetchBatch symbols gw rand
    ∧ (fetchBatch symbols gw rand).length = symbols.length
    ∧ (fetchOne symbol (gw symbol) (rand symbol)).price = 100 + rand symbol 0 * 50
    ∧ 0 < (fetchOne symbol (gw symbol) (rand symbol)).price := by
  have hprice : (fetchOne symbol (gw symbol) (rand symbol)).price =
      100 + rand symbol 0 * 50 := by
    cases hgw : gw symbol with
    | err => rfl
    | ok res =>
      cases res with
      | none => rfl
      | some result =>
        rw [hgw] at hfail
        have hor : (truthyQ result.last_quote_c || truthyQ result.fmv ||
            truthyQ result.value) = false := by
          by_contra hne
          rw [Bool.not_eq_false] at hne
          exact hfail (by simp [dataStateOf, hne])
        simp only [Bool.or_eq_false_iff] at hor
        show jsOrQ result.last_quote_c
          (jsOrQ result.fmv (jsOrQ result.value (100 + rand symbol 0 * 50))) = _
        rw [jsOrQ_of_not_truthy _ _ hor.1.1, jsOrQ_of_not_truthy _ _ hor.1.2,
          jsOrQ_of_not_truthy _ _ hor.2]
  have hstate : dataStateOf (gw symbol) = .Failed ∨ dataStateOf (gw symbol) = .Fallback := by
    cases hgw : gw symbol with
    | err => exact Or.inl rfl
    | ok res =>
      cases res with
      | none => exact Or.inr rfl
      | some result =>
        rw [hgw] at hfail
        right
        by_cases htr : (truthyQ result.last_quote_c || truthyQ result.fmv ||
            truthyQ result.value) = true
        · exact absurd (by simp [dataStateOf, htr]) hfail
        · simp only [Bool.not_eq_true] at htr
          simp [dataStateOf, htr]
  refine ⟨hstate, List.mem_map_of_mem _ hmem, by simp [fetchBatch], hprice, ?_⟩
  rw [hprice]
  have h50 : 0 ≤ rand symbol 0 * 50 := mul_nonneg hr (by norm_num)
  linarith

/-- Witness for C3 at concrete inputs. -/
theorem failed_symbol_still_published_witness :
    (dataStateOf ((fun _ => GatewayOutcome.err) "MSFT") = .Failed
      ∨ dataStateOf ((fun _ => GatewayOutcome.err) "MSFT") = .Fallback)
    ∧ fetchOne "MSFT" ((fun _ => GatewayOutcome.err) "MSFT") ((fun _ _ => (0:ℚ)) "MSFT") ∈
        fetchBatch ["AAPL", "MSFT"] (fun _ => GatewayOutcome.err) (fun _ _ => (0:ℚ))
    ∧ (fetchBatch ["AAPL", "MSFT"] (fun _ => GatewayOutcome.err) (fun _ _ => (0:ℚ))).length =
        (["AAPL", "MSFT"] : List String).length
    ∧ (fetchOne "MSFT" ((fun _ => GatewayOutcome.err) "MSFT")
        ((fun _ _ => (0:ℚ)) "MSFT")).price = 100 + (fun _ _ => (0:ℚ)) "MSFT" 0 * 50
    ∧ 0 < (fetchOne "MSFT" ((fun _ => GatewayOutcome.err) "MSFT")
        ((fun _ _ => (0:ℚ)) "MSFT")).price :=
  failed_symbol_still_published ["AAPL", "MSFT"] (fun _ => .err) (fun _ _ => 0) "MSFT"
    (by simp) (by decide) (le_refl 0)

/-- Mapping the per-symbol fetch through the repository Gateway over a
list of already-uppercase symbols reproduces the symbols themselves. -/
lemma map_fetch_symbols (yq : String → Option YQuote) (netFail : String → Bool)
    (rand : String → Nat → ℚ) :
    ∀ (l : List String), (∀ s ∈ l, jsToUpper s = s) →
      l.map (fun s => (fetchOne s (yahooGateway yq netFail s) (rand s)).symbol) = l := by
  intro l
  induction l with
  | nil => intro _; rfl
  | cons a as ih =>
    intro h
    simp only [List.map_cons]
    rw [fetchOne_yahoo_symbol, h a (List.mem_cons_self a as),
      ih (fun s hs => h s (List.mem_cons_of_mem a hs))]

/-- C2: a settled synchronization cycle through the repository Gateway
publishes exactly one entry per stored symbol — the symbol sequence of
the view equals that of the store, hence set and size equality. -/
theorem view_symbols_match_store (symbols : List String)
    (yq : String → Option YQuote) (netFail : String → Bool)
    (rand : String → Nat → ℚ) (hup : ∀ s ∈ symbols, jsToUpper s = s) :
    (fetchBatch symbols (yahooGateway yq netFail) rand).map (fun item => item.symbol) =
      symbols
    ∧ (fetchBatch symbols (yahooGateway yq netFail) rand).length = symbols.length
    ∧ ∀ s, (∃ item ∈ fetchBatch symbols (yahooGateway yq netFail) rand,
        item.symbol = s) ↔ s ∈ symbols := by
  have hmap : (fetchBatch symbols (yahooGateway yq netFail) rand).map
      (fun item => item.symbol) = symbols := by
    rw [fetchBatch, List.map_map]
    exact map_fetch_symbols yq netFail rand symbols hup
  refine ⟨hmap, by simp [fetchBatch], ?_⟩
  intro s
  constructor
  · rintro ⟨item, hitem, rfl⟩
    rw [← hmap]
    exact List.mem_map_of_mem _ hitem
  · intro hs
    rw [← hmap] at hs
    obtain ⟨item, hitem, heq⟩ := List.mem_map.mp hs
    exact ⟨item, hitem, heq⟩

/-- Witness for C2 at concrete inputs. -/
theorem view_symbols_match_store_witness :
    (fetchBatch ["AAPL"] (yahooGateway (fun _ => none) (fun _ => false))
        (fun _ _ => (0:ℚ))).map (fun item => item.symbol) = ["AAPL"]
    ∧ (fetchBatch ["AAPL"] (yahooGateway (fun _ => none) (fun _ => false))
        (fun _ _ => (0:ℚ))).length = (["AAPL"] : List String).length
    ∧ ∀ s, (∃ item ∈ fetchBatch ["AAPL"] (yahooGateway (fun _ => none) (fun _ => false))
        (fun _ _ => (0:ℚ)), item.symbol = s) ↔ s ∈ (["AAPL"] : List String) :=
  view_symbols_match_store ["AAPL"] (fun _ => none) (fun _ => false) (fun _ _ => 0)
    (by intro s hs; simp at hs; subst hs; decide)

/-- C1: once the batch of a later generation has been published, a
batch of an earlier generation that settles afterwards — at any point of any later
event sequence — is discarded unpublished, and only a batch whose
generation matches the current one ever replaces the published view. -/
theorem stale_batch_never_published (s : SyncState) (es : List SyncEvent)
    (g : Nat) (v : List WatchlistItem)
    (hinv : s.pubGen ≤ s.generation) (hstale : g < s.pubGen) :
    syncRun s (es ++ [.settle g v]) = syncRun s es
    ∧ ∀ g2 v2, (syncStep (syncRun s es) (.settle g2 v2)).published ≠
        (syncRun s es).published → g2 = (syncRun s es).generation := by
  obtain ⟨h1, h2⟩ := syncRun_invariant s es hinv
  constructor
  · rw [syncRun_append]
    have hne : g ≠ (syncRun s es).generation :=
      Nat.ne_of_lt (lt_of_lt_of_le (lt_of_lt_of_le hstale h2) h1)
    simp [syncRun, syncStep, hne]
  · intro g2 v2 hpub
    by_contra hne
    exact hpub (by simp [syncStep, hne])

/-- Witness for C1 at concrete inputs: in a state that has published
generation 1, a late settle of generation 0 changes nothing, and a
settle of the current generation is the only way the view changes. -/
theorem stale_batch_never_published_witness :
    syncRun ⟨1, 1, []⟩ ([] ++ [.settle 0 []]) = syncRun ⟨1, 1, []⟩ []
    ∧ (1 : Nat) = (syncRun ⟨1, 1, ([] : List WatchlistItem)⟩ []).generation :=
  ⟨(stale_batch_never_published ⟨1, 1, []⟩ [] 0 [] (le_refl 1) Nat.zero_lt_one).1,
    (stale_batch_never_published ⟨1, 1, []⟩ [] 0 [] (le_refl 1) Nat.zero_lt_one).2
      1 [⟨"A", "A", 0, 0, 0, []⟩] (by simp [syncRun, syncStep])⟩

end PersonalCfa
